import Mathlib

/-!
# Verification of the cartha-validator core pipeline

A shallow embedding of the validator's scoring, weight-composition,
publishing, entry-processing, epoch-reconciliation, cache-persistence and
daemon-scheduling logic, translated from the Python sources
(`cartha_validator/scoring.py`, `weights.py`, `processor.py`,
`epoch_runner.py`, `pool_weights.py`, `main.py`).

Python floats are modelled as exact rationals (`ℚ`); the one transcendental
step (`math.exp`) is modelled with `Real.exp`, so the score function lives in
`ℝ`.  Python dicts keyed by strings or ints are modelled as association
lists in insertion order, which matches dict iteration order.
-/

namespace CarthaValidator

/-- One position record as consumed by the scorer: mirrors the
`{"amount": int, "lockDays": int, "pool_id": str}` dict built by
`processor.process_entries`. -/
structure PosData where
  amount : Int
  lockDays : Int
  poolId : String
deriving DecidableEq, Repr

/-- The slice of `config.ValidatorSettings` used by the embedded components.
`score_temperature` is read by `scoring.score_entry` (the tests inject it via
`model_copy`), so it is carried here as a field. -/
structure Settings where
  netuid : Int
  pool_weights : List (String × ℚ)
  token_decimals : Int
  max_lock_days : Int
  score_temperature : ℚ
  min_total_assets_usdc : ℚ
  trader_rewards_pool_hotkey : String
  trader_rewards_pool_weight : ℚ
  epoch_length_blocks : Int
deriving DecidableEq, Repr

/-- `settings.pool_weights.get(pool_id, 1.0)` from `scoring.py` line 21:
a pool id missing from the map defaults to weight 1.0. -/
def poolWeightOf (s : Settings) (poolId : String) : ℚ :=
  (s.pool_weights.lookup poolId).getD 1

/-- The lock-days boost of `scoring.py` lines 27-31: `1.0` when
`max_lock_days <= 0`, else `min(lock_days, max_lock_days) / max_lock_days`. -/
def boostOf (s : Settings) (lockDays : Int) : ℚ :=
  if s.max_lock_days ≤ 0 then 1
  else ((min lockDays s.max_lock_days : Int) : ℚ) / (s.max_lock_days : ℚ)

/-- The amount scale of `scoring.py` lines 23-24:
`decimals = max(0, settings.token_decimals)`;
`scale = float(10**decimals) if decimals else 1.0`. -/
def scaleOf (s : Settings) : ℚ :=
  let decimals := max 0 s.token_decimals
  if decimals = 0 then 1 else (10 : ℚ) ^ decimals.toNat

/-- One loop iteration's `raw_contrib` from `scoring.py` line 32:
`weight * amount_tokens * boost`, where the weight is looked up under the
position's dict key. -/
def rawContrib (s : Settings) (key : String) (d : PosData) : ℚ :=
  poolWeightOf s key * ((d.amount : ℚ) / scaleOf s) * boostOf s d.lockDays

/-- The `raw_total` accumulation of `scoring.py` lines 18-39. -/
def score_entry_raw (position : List (String × PosData)) (s : Settings) : ℚ :=
  position.foldl (fun acc p => acc + rawContrib s p.1 p.2) 0

/-- `scoring.score_entry` (lines 13-62): accumulate `raw_total`; return `0.0`
when it is non-positive; clamp it to `[0,1]` when `score_temperature <= 0`;
otherwise return `1 - exp(-raw_total / temperature)` clamped to `[0,1]`. -/
noncomputable def score_entry (position : List (String × PosData)) (s : Settings) : ℝ :=
  if score_entry_raw position s ≤ 0 then 0
  else if s.score_temperature ≤ 0 then
    max 0 (min ((score_entry_raw position s : ℚ) : ℝ) 1)
  else
    max 0 (min (1 - Real.exp (-((score_entry_raw position s : ℚ) : ℝ)
      / ((s.score_temperature : ℚ) : ℝ))) 1)

/-- Modelled from the claim/spec wording for the scorer:
`score = Σ pool_weights[pool_id] (default 0 if missing)
       × (amount_raw / 10^token_decimals)
       × min(lock_days, max_lock_days)/max_lock_days`.
This is the claim-side formula, kept separate from the source-side
`score_entry_raw` for comparison. -/
def score_formula_spec (position : List (String × PosData)) (s : Settings) : ℚ :=
  (position.map (fun p =>
    ((s.pool_weights.lookup p.1).getD 0)
      * ((p.2.amount : ℚ) / (10 : ℚ) ^ (s.token_decimals : ℤ))
      * (((min p.2.lockDays s.max_lock_days : Int) : ℚ) / (s.max_lock_days : ℚ)))).sum

/-! ## Weight composition (`weights._normalize`) -/

/-- Python dict assignment `weights[k] = v` on an association list: replaces
the value in place when the key exists, else appends. -/
def insertOrReplace (l : List (Int × ℚ)) (k : Int) (v : ℚ) : List (Int × ℚ) :=
  if l.any (fun p => p.1 == k) then
    l.map (fun p => if p.1 == k then (k, v) else p)
  else l ++ [(k, v)]

/-- The trader-weight validation of `weights.py` lines 48-53: weights outside
`[0, 1)` are reset to `0`. -/
def validatedTraderWeight (w : ℚ) : ℚ :=
  if w < 0 ∨ 1 ≤ w then 0 else w

/-- `positive = {uid: max(0.0, score) ...}` (`weights.py` line 56). -/
def clampedScores (scores : List (Int × ℚ)) : List (Int × ℚ) :=
  scores.map (fun p => (p.1, max 0 p.2))

/-- `miner_scores` (`weights.py` lines 62-63): clamped scores with the trader
and owner uids excluded. -/
def minerScoresOf (scores : List (Int × ℚ)) (t o : Option Int) : List (Int × ℚ) :=
  (clampedScores scores).filter (fun p => !(t == some p.1 || o == some p.1))

/-- `positive_miner_scores` (`weights.py` line 66): miners with score `> 0`. -/
def positiveMinerOf (scores : List (Int × ℚ)) (t o : Option Int) : List (Int × ℚ) :=
  (minerScoresOf scores t o).filter (fun p => decide (0 < p.2))

/-- `miner_total` (`weights.py` line 76). -/
def minerTotalOf (scores : List (Int × ℚ)) (t o : Option Int) : ℚ :=
  ((positiveMinerOf scores t o).map Prod.snd).sum

/-- The `weights` dict built at `weights.py` lines 78-115: burn the remaining
weight to the owner uid when no positive miner scores exist, else distribute
it pro-rata. -/
def baseWeights (scores : List (Int × ℚ)) (t o : Option Int) (remaining : ℚ) :
    List (Int × ℚ) :=
  if minerTotalOf scores t o ≤ 0 then
    match o with
    | some oo => [(oo, remaining)]
    | none => []
  else
    (positiveMinerOf scores t o).map
      (fun p => (p.1, p.2 / minerTotalOf scores t o * remaining))

/-- `weights._normalize` (lines 30-134), with dicts as association lists:
validate the trader weight, clamp negative scores, exclude the trader and
owner uids, drop zero scores, then either distribute `1 - trader_weight`
pro-rata over the positive miner scores or burn it to the owner uid, and
finally add the fixed trader allocation (`weights.py` lines 117-124). -/
def normalize_scores (scores : List (Int × ℚ)) (trader_pool_uid : Option Int)
    (trader_pool_weight : ℚ) (owner_hotkey_uid : Option Int) : List (Int × ℚ) :=
  let tw := validatedTraderWeight trader_pool_weight
  let base := baseWeights scores trader_pool_uid owner_hotkey_uid (1 - tw)
  match trader_pool_uid with
  | some t => if 0 < tw then insertOrReplace base t tw else base
  | none => base

/-- Concrete score map for the C3 counterexample: one positive input, which
belongs to the trader uid itself. -/
def c3Scores : List (Int × ℚ) := [(99, 5)]

/-- Total allocated weight of a composed weight map. -/
def sumWeights (l : List (Int × ℚ)) : ℚ := (l.map Prod.snd).sum

/-! ## Publishing (`weights.publish`) -/

/-- Outcome of `subtensor.get_uid_for_hotkey_on_subnet`: an exception
(`failed`), `None`, or an integer uid. -/
inductive UidRes where
  | failed
  | resolved (u : Option Int)
deriving DecidableEq, Repr

/-- The metagraph fields read by `publish`: `owner_hotkey`, `last_update`
(`none` models a metagraph without that attribute) and `tempo` (`none`
models `getattr(metagraph, "tempo", None) = None`). -/
structure Metagraph where
  ownerHotkey : Option String
  lastUpdate : Option (List Int)
  tempo : Option Int
deriving DecidableEq, Repr

/-- Trader-uid resolution of `weights.py` lines 224-254: only attempted when
the trader hotkey is truthy and the configured weight is positive; an
exception, `None`, or a negative uid all leave the trader share unassigned. -/
def resolvedTraderUid (s : Settings) (traderRes : UidRes) : Option Int :=
  if s.trader_rewards_pool_hotkey ≠ "" ∧ 0 < s.trader_rewards_pool_weight then
    match traderRes with
    | .failed => none
    | .resolved none => none
    | .resolved (some i) => if i < 0 then none else some i
  else none

/-- Owner-uid resolution of `weights.py` lines 256-282: requires a metagraph
with a truthy `owner_hotkey`; an exception, `None`, or a negative uid disable
the burn channel. -/
def resolvedOwnerUid (mg : Option Metagraph) (ownerRes : UidRes) : Option Int :=
  match mg with
  | none => none
  | some m =>
    match m.ownerHotkey with
    | none => none
    | some h =>
      if h = "" then none
      else
        match ownerRes with
        | .failed => none
        | .resolved none => none
        | .resolved (some i) => if 0 ≤ i then some i else none

/-- The guarded read `metagraph.last_update[validator_uid] if hasattr(...) and
validator_uid < len(...) else 0` (`weights.py` lines 343-347). -/
def lastUpdateOf (m : Metagraph) (v : Nat) : Int :=
  match m.lastUpdate with
  | some l => if v < l.length then l.getD v 0 else 0
  | none => 0

/-- `epoch_length = getattr(metagraph, "tempo", None) or
settings.epoch_length_blocks` (`weights.py` line 350): a falsy tempo
(absent or 0) falls back to the settings value. -/
def effectiveTempo (m : Metagraph) (s : Settings) : Int :=
  match m.tempo with
  | some t => if t = 0 then s.epoch_length_blocks else t
  | none => s.epoch_length_blocks

/-- Outcome of the external `_set_weights_with_timeout` call: a timeout, an
exception, or a `(success, message)` pair; `benignCooldownMsg` records whether
the failure message contains "too soon" or "cooldown" (case-insensitive). -/
inductive SubmitOutcome where
  | timedOut
  | raised
  | returned (success : Bool) (benignCooldownMsg : Bool)
deriving DecidableEq, Repr

/-- What `publish` produced: the weight map it returns, whether the chain
`set_weights` call was reached, and whether it returned without raising. -/
structure PublishResult where
  weights : List (Int × ℚ)
  submitted : Bool
  ok : Bool
deriving DecidableEq, Repr

/-- `weights.publish` (lines 199-410) as a pure function over the resolved
chain interactions: resolve the trader and owner uids, return early when
there is nothing to publish, compose weights via `_normalize`, suppress the
submit during the cooldown window unless `force`, and otherwise classify the
submit outcome (timeout and unexpected exceptions re-raise, a "too
soon"/"cooldown" failure message is benign). -/
def publish_model (scores : List (Int × ℚ)) (s : Settings) (traderRes : UidRes)
    (mg : Option Metagraph) (ownerRes : UidRes) (validatorUid : Option Nat)
    (currentBlock : Int) (force : Bool) (submit : SubmitOutcome) : PublishResult :=
  let traderUid := resolvedTraderUid s traderRes
  let ownerUid := resolvedOwnerUid mg ownerRes
  if scores.isEmpty ∧ traderUid = none ∧ ownerUid = none then
    ⟨[], false, true⟩
  else
    let w := normalize_scores scores traderUid
      (if traderUid.isSome then s.trader_rewards_pool_weight else 0) ownerUid
    let suppressed : Bool :=
      if force then false
      else
        match mg, validatorUid with
        | some m, some v => decide (currentBlock - lastUpdateOf m v < effectiveTempo m s)
        | _, _ => false
    if suppressed then ⟨w, false, true⟩
    else
      match submit with
      | .timedOut => ⟨w, true, false⟩
      | .raised => ⟨w, true, false⟩
      | .returned true _ => ⟨w, true, true⟩
      | .returned false benign => if benign then ⟨w, true, true⟩ else ⟨w, true, false⟩

/-! ## Daemon scheduling (`main.main` daemon loop) -/

/-- A daemon-loop publish decision: a full epoch pass (`run_epoch` at
`main.py` line 996), a re-publish of cached weights (`publish` at `main.py`
line 1068), or neither.  Each call records the `force` flag it passes to the
publisher. -/
inductive DaemonCall where
  | runEpochPass (epoch : String) (force : Bool)
  | publishCached (epoch : String) (force : Bool)
  | idle
deriving DecidableEq, Repr

/-- The daemon-loop state variables of `main.main`. -/
structure LoopState where
  lastWeekly : Option String
  cachedScores : Option (List (Int × ℚ))
  cachedWeights : Option (List (Int × ℚ))
  cachedEpoch : Option String
  lastPublishBlock : Int
deriving DecidableEq, Repr

/-- The per-iteration environment of the daemon loop: the current weekly
epoch version, the current block, the (possibly absent) metagraph and
validator uid, and `bittensor_epoch_length` (the tempo). -/
structure LoopEnv where
  currentWeekly : String
  currentBlock : Int
  metagraph : Option Metagraph
  validatorUid : Option Nat
  tempo : Int
deriving DecidableEq, Repr

/-- The sub-epoch re-publish condition of `main.py` lines 1040-1059:
with a metagraph and validator uid, `blocks_since_update >= tempo`; otherwise
`current_block - last_weight_publish_block >= tempo`. -/
def daemonShouldPublish (st : LoopState) (env : LoopEnv) : Bool :=
  match env.metagraph, env.validatorUid with
  | some m, some v => decide (env.tempo ≤ env.currentBlock - lastUpdateOf m v)
  | _, _ => decide (env.tempo ≤ env.currentBlock - st.lastPublishBlock)

/-- One daemon-loop iteration's publish decision (`main.py` lines 964-1096).
A new weekly epoch or a restart (`last_weekly_epoch_version` differs,
including the startup value `None`) triggers a full `run_epoch` pass;
otherwise, with cached weights present and the tempo boundary passed, the
cached weights are re-published.  Both call sites omit the `force` argument
(`main.py`'s own `run_epoch` at line 501 takes no such parameter, and the
`publish` call at line 1068 passes none), so each call carries `publish`'s
default `force=False` — hence the `false` literals. -/
def daemonTick (st : LoopState) (env : LoopEnv) : DaemonCall :=
  if st.lastWeekly ≠ some env.currentWeekly then
    DaemonCall.runEpochPass env.currentWeekly false
  else
    match st.cachedScores, st.cachedWeights, st.cachedEpoch with
    | some _, some _, some ce =>
      if daemonShouldPublish st env then DaemonCall.publishCached ce false
      else DaemonCall.idle
    | _, _, _ => DaemonCall.idle

/-! ## Verified miner entries (`processor` / `epoch_runner`) -/

/-- An optional timestamp field as the processor sees it: absent, present but
unparsable (`ValueError`/`TypeError` during ISO-8601 parsing), or parsed to
an instant (seconds, timezone already normalised to UTC). -/
inductive TsField where
  | absent
  | malformed
  | parsed (t : Int)
deriving DecidableEq, Repr

/-- One verified miner entry as returned by the verifier (the fields the
embedded components read). -/
structure Entry where
  hotkey : Option String
  slotUid : Option String
  poolId : Option String
  amount : Int
  lockDays : Int
  epochVersion : Option String
  expiresAt : TsField
  deregisteredAt : TsField
deriving DecidableEq, Repr

/-! ## Epoch reconciliation (`epoch_runner.run_epoch`) -/

/-- The truthy `epoch_version` values of the returned entries
(`entry.get("epoch_version")` is falsy for both a missing key and `""`),
`epoch_runner.py` lines 283-287. -/
def truthyVersions (entries : List Entry) : List String :=
  entries.filterMap (fun e =>
    match e.epochVersion with
    | some v => if v = "" then none else some v
    | none => none)

/-- Distinct values in first-occurrence order (the `set` of versions, with
the insertion order `collections.Counter` would also preserve). -/
def firstOccs (l : List String) : List String :=
  l.foldl (fun acc x => if acc.contains x then acc else acc ++ [x]) []

/-- Number of occurrences of `v` in `l`. -/
def countOcc (l : List String) (v : String) : Nat :=
  (l.filter (fun x => x == v)).length

/-- `Counter(...).most_common(1)[0][0]` (`epoch_runner.py` lines 297-302):
the value with the highest count; ties go to the earliest first occurrence,
matching `Counter`'s stable ordering. -/
def modalVersion (vs : List String) : Option String :=
  (firstOccs vs).foldl
    (fun best v =>
      match best with
      | none => some v
      | some b => if countOcc vs b < countOcc vs v then some v else best)
    none

/-- The epoch reconciliation of `epoch_runner.py` lines 277-322: with a
non-empty response, adopt the single shared `epoch_version` when all entries
agree, or the modal one when they differ; keep the requested epoch when no
truthy version exists or the found version equals the request. -/
def adoptEpoch (requested : String) (entries : List Entry) : String :=
  if entries.isEmpty then requested
  else
    let distinct := firstOccs (truthyVersions entries)
    let actual : Option String :=
      if distinct.length = 1 then distinct.head?
      else if 1 < distinct.length then modalVersion (truthyVersions entries)
      else none
    match actual with
    | some a => if a ≠ requested then a else requested
    | none => requested

/-- The epoch values that flow through one `run_epoch` pass. -/
structure EpochFlow where
  deregQueryEpoch : String
  effectiveEpoch : String
  artifactEpoch : String
deriving DecidableEq, Repr

/-- The epoch dataflow of `epoch_runner.run_epoch`: the deregistered-hotkeys
request (`epoch_runner.py` line 202) is issued inside the HTTP block with the
REQUESTED `epoch_version`, before the reconciliation at lines 277-322 runs;
the adopted epoch is what `result["epoch_version"]` (line 374) and the
persisted artifact (lines 456-464) carry. -/
def run_epoch_flow (requested : String) (entries : List Entry) : EpochFlow :=
  { deregQueryEpoch := requested
  , effectiveEpoch := adoptEpoch requested entries
  , artifactEpoch := adoptEpoch requested entries }

/-! ## Pool-weights cache persistence (`pool_weights._save_cache`) -/

/-- A primitive file operation on the cache file.  File contents are byte
lists. -/
inductive FsOp where
  | truncate
  | writeAll (content : List Nat)
deriving DecidableEq, Repr

/-- `pool_weights._save_cache` (lines 79-104) as primitive file operations:
`CACHE_FILE.open("w")` truncates the cache file in place, then `json.dump`
streams the serialized cache record into it.  There is no temporary file and
no rename. -/
def save_cache_ops (serialized : List Nat) : List FsOp :=
  [FsOp.truncate, FsOp.writeAll serialized]

/-- Effect of one completed operation on the file content. -/
def applyOp (content : List Nat) : FsOp → List Nat
  | .truncate => []
  | .writeAll s => content ++ s

/-- File content after all operations complete. -/
def runOps (content : List Nat) (ops : List FsOp) : List Nat :=
  ops.foldl applyOp content

/-- Contents observable if the process crashes in the middle of one
operation: truncation is a single atomic metadata update, while a streamed
write may stop after any prefix of its payload. -/
def midStates (content : List Nat) : FsOp → List (List Nat)
  | .truncate => []
  | .writeAll s => (List.range (s.length + 1)).map (fun k => content ++ s.take k)

/-- All file contents observable at some crash point while the operations
run (before, during or after each operation). -/
def crashStates (content : List Nat) : List FsOp → List (List Nat)
  | [] => [content]
  | op :: rest => content :: (midStates content op ++ crashStates (applyOp content op) rest)

/-- Byte-list stand-ins for the previous and new serialized cache records. -/
def c9OldContent : List Nat := [1, 2]

/-- See `c9OldContent`. -/
def c9NewContent : List Nat := [3, 4]

/-! ## Entry processing (`processor.process_entries`, verified-amounts path)

The replay path (`use_verified_amounts=False`) performs live JSON-RPC calls
through web3 providers and is not embedded; the deregistration branch and all
claims below concern the grouping pass and the per-miner loop body, which the
verified-amounts path exercises in full.  The deregistration branch itself
(`processor.py` lines 177-188) runs before either per-entry path. -/

/-- One grouped miner: the first entry's hotkey and slot uid
(`grouped.setdefault`, `processor.py` lines 157-163) and the accumulated
source entries (`sources.setdefault(...).append`, line 164). -/
structure MinerGroup where
  hotkey : String
  slotUid : Option String
  entries : List Entry
deriving DecidableEq, Repr

/-- Result of the grouping pass (`processor.py` lines 119-166): the grouped
miners in insertion order plus the counters the pass accumulates. -/
structure Pass1 where
  groups : List (Int × MinerGroup)
  totalRows : Nat
  skipped : Nat
  failures : Nat
  missingUid : Nat
deriving DecidableEq, Repr

/-- `entry.get("hotkey")` followed by `if not hotkey` (`processor.py` lines
121-125): a missing or empty hotkey is falsy. -/
def hotkeyTruthy (e : Entry) : Option String :=
  match e.hotkey with
  | some h => if h = "" then none else some h
  | none => none

/-- `grouped.setdefault(uid, ...)` + `sources.setdefault(uid, []).append`:
append the entry to an existing group for this uid (keeping its first
hotkey/slot uid) or open a new group at the end. -/
def addToGroups : List (Int × MinerGroup) → Int → String → Option String → Entry →
    List (Int × MinerGroup)
  | [], u, h, slot, e => [(u, ⟨h, slot, [e]⟩)]
  | (v, g) :: rest, u, h, slot, e =>
    if v = u then (v, { g with entries := g.entries ++ [e] }) :: rest
    else (v, g) :: addToGroups rest u h slot e

/-- One iteration of the grouping loop (`processor.py` lines 119-164): count
the row; skip falsy hotkeys; a uid-resolution exception counts a failure; a
`None` or negative uid counts `missing_uid` and `skipped`; otherwise append
to the miner's group. -/
def groupStep (uidFor : String → UidRes) (acc : Pass1) (e : Entry) : Pass1 :=
  let acc2 := { acc with totalRows := acc.totalRows + 1 }
  match hotkeyTruthy e with
  | none => { acc2 with skipped := acc2.skipped + 1 }
  | some h =>
    match uidFor h with
    | .failed => { acc2 with failures := acc2.failures + 1 }
    | .resolved none =>
      { acc2 with missingUid := acc2.missingUid + 1, skipped := acc2.skipped + 1 }
    | .resolved (some u) =>
      if u < 0 then
        { acc2 with missingUid := acc2.missingUid + 1, skipped := acc2.skipped + 1 }
      else
        { acc2 with groups := addToGroups acc2.groups u h e.slotUid e }

/-- The grouping pass over all entries. -/
def groupEntries (entries : List Entry) (uidFor : String → UidRes) : Pass1 :=
  entries.foldl (groupStep uidFor) ⟨[], 0, 0, 0, 0⟩

/-- The expiry filters of `processor.py` lines 196-272 for one entry of a
live miner: drop it (counting one expired pool) when `deregistered_at <= now`
or `expires_at < now`; keep it when the field is absent or unparsable. -/
def entryDropped (e : Entry) (now : Int) : Bool :=
  (match e.deregisteredAt with
   | .parsed t => decide (t ≤ now)
   | _ => false) ||
  (match e.expiresAt with
   | .parsed t => decide (t < now)
   | _ => false)

/-- The per-entry position build of `processor.py` lines 190-284
(verified-amounts path): surviving entries become independent position
records keyed `"{pool_id}#{index}"` (`pool_id` defaults to `"default"`),
dropped entries increment the expired-pool count. -/
def buildPositions (es : List Entry) (now : Int) : List (String × PosData) × Nat :=
  es.foldl
    (fun acc e =>
      if entryDropped e now then (acc.1, acc.2 + 1)
      else
        let pid := e.poolId.getD "default"
        (acc.1 ++ [(pid ++ "#" ++ toString acc.1.length,
          ⟨e.amount, e.lockDays, pid⟩)], acc.2))
    ([], 0)

/-- What one miner's iteration of the scoring loop produced: an optional
recorded score (absent when all positions expired), the deltas it added to
the `skipped`, `expired_pools` and `scored` counters, and its surviving
position records. -/
structure MinerOut where
  score : Option ℝ
  skippedDelta : Nat
  expiredDelta : Nat
  scoredDelta : Nat
  positions : List (String × PosData)

/-- The per-miner loop body of `processor.py` lines 172-481: a deregistered
hotkey records score 0 directly, counting all of the miner's entries as
skipped and as expired pools and scoring no position; otherwise build the
surviving positions, record no score when none survive, and else apply the
minimum-total-assets rule (`total_amount / 10^token_decimals` against
`min_total_assets_usdc`, lines 433-458) before calling `score_entry`. -/
noncomputable def processMiner (g : MinerGroup) (s : Settings) (dereg : List String)
    (now : Int) : MinerOut :=
  if g.hotkey ∈ dereg then
    ⟨some 0, g.entries.length, g.entries.length, 0, []⟩
  else
    let bp := buildPositions g.entries now
    if bp.1.isEmpty then ⟨none, 0, bp.2, 0, []⟩
    else
      let unit : ℚ := (10 : ℚ) ^ s.token_decimals
      let totalUsdc : ℚ := (((bp.1.map (fun p => p.2.amount)).sum : Int) : ℚ) / unit
      let sc : ℝ := if totalUsdc < s.min_total_assets_usdc then 0 else score_entry bp.1 s
      ⟨some sc, 0, bp.2, 1, bp.1⟩

/-- The `scores` dict filled by the loop (`processor.py` lines 185 and 461):
one pair per miner that recorded a score, in group order. -/
noncomputable def processEntriesScores (entries : List Entry) (uidFor : String → UidRes)
    (s : Settings) (dereg : List String) (now : Int) : List (Int × ℝ) :=
  (groupEntries entries uidFor).groups.filterMap
    (fun p => ((processMiner p.2 s dereg now).score).map (fun sc => (p.1, sc)))

/-- Concrete entry for the C5 witness. -/
def c5Entry : Entry :=
  ⟨some "HK1", some "1", some "P", 1000000000000, 180,
    some "2024-11-08T00:00:00Z", TsField.absent, TsField.absent⟩

/-- Uid resolution for the C5 witness: hotkey HK1 is uid 3, everything else
is unregistered. -/
def c5UidFor : String → UidRes :=
  fun h => if h = "HK1" then UidRes.resolved (some 3) else UidRes.resolved none

/-- The group that `groupEntries [c5Entry] c5UidFor` builds for uid 3. -/
def c5Group : MinerGroup := ⟨"HK1", some "1", [c5Entry]⟩

/-- Concrete entry for the C8 scenario S5: the verifier answers a request for
`2024-11-15` with entries frozen at `2024-11-08`. -/
def c8Entry : Entry :=
  ⟨some "HK1", some "1", some "P", 1000000, 180,
    some "2024-11-08T00:00:00Z", TsField.absent, TsField.absent⟩

/-- Concrete metagraph for the C6 witness: the validator at uid 0 last
updated at block 100, tempo 360. -/
def c6Metagraph : Metagraph := ⟨some "OWNERHOTKEY", some [100], some 360⟩

/-- Daemon state at first iteration after startup: no weekly epoch seen yet,
nothing cached. -/
def c7BootState : LoopState := ⟨none, none, none, none, 0⟩

/-- Daemon state in the middle of a weekly epoch with cached weights. -/
def c7MidweekState : LoopState :=
  ⟨some "2024-11-08T00:00:00Z", some [(1, 1)], some [(1, 1)],
    some "2024-11-08T00:00:00Z", 0⟩

/-- Daemon environment: current weekly epoch `2024-11-08`, block 1000 (≥ one
tempo past the last publish), no metagraph, tempo 360. -/
def c7Env : LoopEnv := ⟨"2024-11-08T00:00:00Z", 1000, none, none, 360⟩

/-! ## Scoring helper lemmas (shared) -/

theorem foldl_add_eq_sum {α : Type} (f : α → ℚ) (l : List α) (a : ℚ) :
    l.foldl (fun acc p => acc + f p) a = a + (l.map f).sum := by
  induction l generalizing a with
  | nil => simp
  | cons x xs ih => simp [ih, add_assoc]

theorem score_entry_raw_eq_sum (position : List (String × PosData)) (s : Settings) :
    score_entry_raw position s = (position.map (fun p => rawContrib s p.1 p.2)).sum := by
  unfold score_entry_raw
  simpa using foldl_add_eq_sum (fun p => rawContrib s p.1 p.2) position 0

theorem score_entry_nonneg (position : List (String × PosData)) (s : Settings) :
    0 ≤ score_entry position s := by
  unfold score_entry
  split
  · exact le_refl (0 : ℝ)
  · split
    · exact le_max_left 0 _
    · exact le_max_left 0 _

theorem score_entry_le_one (position : List (String × PosData)) (s : Settings) :
    score_entry position s ≤ 1 := by
  unfold score_entry
  split
  · exact zero_le_one
  · split
    · exact max_le (zero_le_one) (min_le_right _ _)
    · exact max_le (zero_le_one) (min_le_right _ _)

theorem score_entry_of_nonpos (position : List (String × PosData)) (s : Settings)
    (h : score_entry_raw position s ≤ 0) : score_entry position s = 0 := by
  unfold score_entry
  simp [h]

theorem score_entry_exp_eq (position : List (String × PosData)) (s : Settings)
    (h1 : 0 < score_entry_raw position s) (h2 : 0 < s.score_temperature) :
    score_entry position s =
      max 0 (min (1 - Real.exp (-(score_entry_raw position s : ℝ)
        / (s.score_temperature : ℝ))) 1) := by
  unfold score_entry
  simp [not_le.mpr h1, not_le.mpr h2]

theorem score_entry_pos (position : List (String × PosData)) (s : Settings)
    (h1 : 0 < score_entry_raw position s) (h2 : 0 < s.score_temperature) :
    0 < score_entry position s := by
  rw [score_entry_exp_eq position s h1 h2]
  have hrawR : (0 : ℝ) < (score_entry_raw position s : ℚ) := by exact_mod_cast h1
  have htempR : (0 : ℝ) < (s.score_temperature : ℚ) := by exact_mod_cast h2
  have hneg : -((score_entry_raw position s : ℚ) : ℝ) / ((s.score_temperature : ℚ) : ℝ) < 0 :=
    div_neg_of_neg_of_pos (neg_neg_of_pos hrawR) htempR
  have hexp : Real.exp (-((score_entry_raw position s : ℚ) : ℝ)
      / ((s.score_temperature : ℚ) : ℝ)) < 1 := by
    calc Real.exp _ < Real.exp 0 := Real.exp_lt_exp.mpr hneg
    _ = 1 := Real.exp_zero
  have hmin : 0 < min (1 - Real.exp (-((score_entry_raw position s : ℚ) : ℝ)
      / ((s.score_temperature : ℚ) : ℝ))) 1 :=
    lt_min (by linarith) one_pos
  exact lt_of_lt_of_le hmin (le_max_right 0 _)

/-! ## Concrete inputs for scenario S1 and the unknown-pool scenario -/

/-- Scenario S1 settings: `token_decimals=6, max_lock_days=365,
pool_weights={"P":1.0}, min_total_assets_usdc=100_000`, with the tests'
`score_temperature=1000.0`. -/
def s1Settings : Settings :=
  { netuid := 35
  , pool_weights := [("P", 1)]
  , token_decimals := 6
  , max_lock_days := 365
  , score_temperature := 1000
  , min_total_assets_usdc := 100000
  , trader_rewards_pool_hotkey := "5EPdZMZyByHbweNBWRFwYqL5czKGbdeVKTpHqVizp4UyUq94"
  , trader_rewards_pool_weight := 243902 / 1000000
  , epoch_length_blocks := 360 }

/-- Scenario S1 position: one position, pool "P",
`amount_raw = 1_000_000_000_000`, `lock_days = 180`. -/
def s1Position : List (String × PosData) :=
  [("P", ⟨1000000000000, 180, "P"⟩)]

/-- Settings whose pool-weight map does not contain the pool of
`unknownPoolPosition`. -/
def unknownPoolSettings : Settings :=
  { netuid := 35
  , pool_weights := [("SOMEOTHERPOOL", 1)]
  , token_decimals := 6
  , max_lock_days := 365
  , score_temperature := 1000
  , min_total_assets_usdc := 100000
  , trader_rewards_pool_hotkey := "5EPdZMZyByHbweNBWRFwYqL5czKGbdeVKTpHqVizp4UyUq94"
  , trader_rewards_pool_weight := 243902 / 1000000
  , epoch_length_blocks := 360 }

/-- A single position referencing pool "X", which is absent from
`unknownPoolSettings.pool_weights`. -/
def unknownPoolPosition : List (String × PosData) :=
  [("X", ⟨1000000000000, 180, "X"⟩)]

/-! ## Claims C1, C2, C10 about the scorer -/

/-- C10: for every input position map and settings, `score_entry` returns a
value in the closed interval `[0, 1]`, and a non-positive raw total yields
exactly `0`. -/
theorem claim_C10_score_entry_unit_interval :
    ∀ (position : List (String × PosData)) (s : Settings),
      (0 ≤ score_entry position s ∧ score_entry position s ≤ 1) ∧
        (score_entry_raw position s ≤ 0 → score_entry position s = 0) :=
  fun position s =>
    ⟨⟨score_entry_nonneg position s, score_entry_le_one position s⟩,
      score_entry_of_nonpos position s⟩

/-- Witness for C10: the bounds at scenario S1, and the exact-zero case on an
empty position map. -/
theorem claim_C10_witness :
    (0 ≤ score_entry s1Position s1Settings ∧ score_entry s1Position s1Settings ≤ 1) ∧
      score_entry [] s1Settings = 0 :=
  ⟨(claim_C10_score_entry_unit_interval s1Position s1Settings).1,
    (claim_C10_score_entry_unit_interval [] s1Settings).2 (by decide)⟩

/-- C1 counterexample: at scenario S1 the claimed raw weighted sum is
`36000000/73 ≈ 493150.68`, but `score_entry` does NOT return it: the scorer
maps the raw total through `1 - exp(-raw/temperature)` clamped to `[0,1]`,
so its value is at most `1`. -/
theorem claim_C1_counterexample :
    score_formula_spec s1Position s1Settings = 36000000 / 73 ∧
      score_entry s1Position s1Settings ≠
        ((score_formula_spec s1Position s1Settings : ℚ) : ℝ) := by
  have hspec : score_formula_spec s1Position s1Settings = 36000000 / 73 := by
    norm_num [score_formula_spec, s1Position, s1Settings]
  refine ⟨hspec, ?_⟩
  have h1 : score_entry s1Position s1Settings ≤ 1 := score_entry_le_one _ _
  have h2 : (1 : ℝ) < ((score_formula_spec s1Position s1Settings : ℚ) : ℝ) := by
    rw [hspec]; norm_num
  exact ne_of_lt (lt_of_le_of_lt h1 h2)

/-- C1 amended: for a positive raw total and positive temperature the scorer
returns `1 - exp(-raw_total/score_temperature)` clamped to `[0,1]`, where
`raw_total` is the weighted sum
`Σ pool_weight × (amount_raw / 10^decimals) × min(lock_days, max)/max`
over the position records (not the raw sum itself). -/
theorem claim_C1_amended :
    ∀ (position : List (String × PosData)) (s : Settings),
      0 < score_entry_raw position s → 0 < s.score_temperature →
      score_entry position s =
          max 0 (min (1 - Real.exp (-((score_entry_raw position s : ℚ) : ℝ)
            / ((s.score_temperature : ℚ) : ℝ))) 1) ∧
        score_entry_raw position s = (position.map (fun p => rawContrib s p.1 p.2)).sum :=
  fun position s h1 h2 =>
    ⟨score_entry_exp_eq position s h1 h2, score_entry_raw_eq_sum position s⟩

/-- Witness for the amended C1, at scenario S1 (temperature 1000). -/
theorem claim_C1_amended_witness :
    0 < score_entry_raw s1Position s1Settings ∧ 0 < s1Settings.score_temperature ∧
      score_entry s1Position s1Settings =
        max 0 (min (1 - Real.exp (-((score_entry_raw s1Position s1Settings : ℚ) : ℝ)
          / ((s1Settings.score_temperature : ℚ) : ℝ))) 1) := by
  have h1 : 0 < score_entry_raw s1Position s1Settings := by
    norm_num [score_entry_raw, rawContrib, poolWeightOf, scaleOf, boostOf, s1Position,
      s1Settings, Int.toNat]
  have h2 : 0 < s1Settings.score_temperature := by decide
  exact ⟨h1, h2, (claim_C1_amended s1Position s1Settings h1 h2).1⟩

/-- C2 counterexample: a miner all of whose positions reference pools unknown
to the pool-weight map does NOT receive score 0: with a positive amount and
positive lock days the score is strictly positive, because a missing pool
defaults to weight `1.0` in `scoring.py` line 21. -/
theorem claim_C2_counterexample :
    (∀ p ∈ unknownPoolPosition, unknownPoolSettings.pool_weights.lookup p.1 = none) ∧
      0 < score_entry unknownPoolPosition unknownPoolSettings := by
  refine ⟨by decide, ?_⟩
  have hlookup : (List.lookup "X" [("SOMEOTHERPOOL", (1 : ℚ))]) = none := by decide
  have h1 : 0 < score_entry_raw unknownPoolPosition unknownPoolSettings := by
    norm_num [score_entry_raw, rawContrib, poolWeightOf, scaleOf, boostOf,
      unknownPoolPosition, unknownPoolSettings, Int.toNat, hlookup]
  exact score_entry_pos _ _ h1 (by decide)

/-- C2 amended: a position whose pool id is absent from `pool_weights`
contributes with pool weight `1.0` (the default for a missing pool is 1, not
0), so a miner all of whose positions reference unknown pools is scored as if
every pool had weight 1 and receives a positive score whenever the raw total
and the temperature are positive. -/
theorem claim_C2_amended :
    ∀ (position : List (String × PosData)) (s : Settings),
      (∀ p ∈ position, s.pool_weights.lookup p.1 = none) →
      score_entry_raw position s =
          (position.map (fun p =>
            ((p.2.amount : ℚ) / scaleOf s) * boostOf s p.2.lockDays)).sum ∧
        (0 < score_entry_raw position s → 0 < s.score_temperature →
          0 < score_entry position s) := by
  intro position s hmissing
  constructor
  · rw [score_entry_raw_eq_sum]
    refine congrArg List.sum (List.map_congr_left ?_)
    intro p hp
    unfold rawContrib poolWeightOf
    rw [hmissing p hp]
    simp [Option.getD]
  · intro h1 h2
    exact score_entry_pos position s h1 h2

/-- Witness for the amended C2, on the unknown-pool scenario. -/
theorem claim_C2_amended_witness :
    score_entry_raw unknownPoolPosition unknownPoolSettings =
        (unknownPoolPosition.map (fun p =>
          ((p.2.amount : ℚ) / scaleOf unknownPoolSettings)
            * boostOf unknownPoolSettings p.2.lockDays)).sum ∧
      0 < score_entry unknownPoolPosition unknownPoolSettings := by
  have hmissing : ∀ p ∈ unknownPoolPosition,
      unknownPoolSettings.pool_weights.lookup p.1 = none := by decide
  have hlookup : (List.lookup "X" [("SOMEOTHERPOOL", (1 : ℚ))]) = none := by decide
  have h1 : 0 < score_entry_raw unknownPoolPosition unknownPoolSettings := by
    norm_num [score_entry_raw, rawContrib, poolWeightOf, scaleOf, boostOf,
      unknownPoolPosition, unknownPoolSettings, Int.toNat, hlookup]
  obtain ⟨ha, hb⟩ := claim_C2_amended unknownPoolPosition unknownPoolSettings hmissing
  exact ⟨ha, hb h1 (by decide)⟩

/-! ## Weight-composition helper lemmas (shared) -/

theorem sumWeights_nil : sumWeights [] = 0 := rfl

theorem sumWeights_append (a b : List (Int × ℚ)) :
    sumWeights (a ++ b) = sumWeights a + sumWeights b := by
  simp [sumWeights]

theorem sumWeights_prorata (l : List (Int × ℚ)) (T r : ℚ) (hT : T ≠ 0)
    (hsum : (l.map Prod.snd).sum = T) :
    sumWeights (l.map (fun p => (p.1, p.2 / T * r))) = r := by
  unfold sumWeights
  rw [List.map_map]
  have h1 : (Prod.snd ∘ fun p : Int × ℚ => (p.1, p.2 / T * r))
      = fun p : Int × ℚ => p.2 * (r / T) := by
    funext p
    simp [Function.comp]
    ring
  rw [h1, List.sum_map_mul_right, hsum]
  field_simp

theorem validatedTraderWeight_eq (w : ℚ) (hw0 : 0 ≤ w) (hw1 : w < 1) :
    validatedTraderWeight w = w := by
  unfold validatedTraderWeight
  rw [if_neg]
  push_neg
  exact ⟨hw0, hw1⟩

theorem positiveMinerOf_mem {scores : List (Int × ℚ)} {t o : Option Int} {p : Int × ℚ}
    (hp : p ∈ scores) (ht : t ≠ some p.1) (ho : o ≠ some p.1) (hpos : 0 < p.2) :
    (p.1, max 0 p.2) ∈ positiveMinerOf scores t o := by
  unfold positiveMinerOf minerScoresOf clampedScores
  rw [List.mem_filter, List.mem_filter]
  refine ⟨⟨List.mem_map.mpr ⟨p, hp, rfl⟩, ?_⟩, ?_⟩
  · simp only [Bool.not_eq_eq_eq_not, Bool.not_true, Bool.or_eq_false_iff, beq_eq_false_iff_ne]
    exact ⟨ht, ho⟩
  · simp only [decide_eq_true_eq]
    exact lt_max_of_lt_right hpos

theorem positiveMinerOf_pos {scores : List (Int × ℚ)} {t o : Option Int} {q : Int × ℚ}
    (hq : q ∈ positiveMinerOf scores t o) : 0 < q.2 := by
  unfold positiveMinerOf at hq
  rw [List.mem_filter] at hq
  simpa using hq.2

theorem positiveMinerOf_not_trader {scores : List (Int × ℚ)} {t o : Option Int}
    {q : Int × ℚ} (hq : q ∈ positiveMinerOf scores t o) : t ≠ some q.1 := by
  unfold positiveMinerOf minerScoresOf at hq
  rw [List.mem_filter] at hq
  have h := hq.1
  rw [List.mem_filter] at h
  have h2 := h.2
  simp only [Bool.not_eq_eq_eq_not, Bool.not_true, Bool.or_eq_false_iff,
    beq_eq_false_iff_ne] at h2
  exact h2.1

theorem minerTotalOf_pos {scores : List (Int × ℚ)} {t o : Option Int} {p : Int × ℚ}
    (hp : p ∈ scores) (ht : t ≠ some p.1) (ho : o ≠ some p.1) (hpos : 0 < p.2) :
    0 < minerTotalOf scores t o := by
  unfold minerTotalOf
  apply List.sum_pos
  · intro x hx
    obtain ⟨q, hq, rfl⟩ := List.mem_map.mp hx
    exact positiveMinerOf_pos hq
  · have hmem := positiveMinerOf_mem hp ht ho hpos
    intro hnil
    rw [List.map_eq_nil_iff] at hnil
    rw [hnil] at hmem
    exact absurd hmem (List.not_mem_nil _)

theorem positiveMinerOf_eq_nil {scores : List (Int × ℚ)} {t o : Option Int}
    (hall : ∀ p ∈ scores, some p.1 = t ∨ some p.1 = o ∨ p.2 ≤ 0) :
    positiveMinerOf scores t o = [] := by
  unfold positiveMinerOf minerScoresOf clampedScores
  rw [List.filter_eq_nil_iff]
  intro a ha
  rw [List.mem_filter] at ha
  obtain ⟨p, hp, rfl⟩ := List.mem_map.mp ha.1
  have hcond := ha.2
  simp only [Bool.not_eq_eq_eq_not, Bool.not_true, Bool.or_eq_false_iff,
    beq_eq_false_iff_ne] at hcond
  rcases hall p hp with h | h | h
  · exact absurd h.symm hcond.1
  · exact absurd h.symm hcond.2
  · simp [max_eq_left h]

theorem insertOrReplace_fresh (l : List (Int × ℚ)) (k : Int) (v : ℚ)
    (h : ∀ p ∈ l, p.1 ≠ k) : insertOrReplace l k v = l ++ [(k, v)] := by
  unfold insertOrReplace
  rw [if_neg]
  simp only [List.any_eq_true, beq_iff_eq, not_exists, not_and]
  intro p hp
  exact h p hp

/-! ## Claims C3 and C4 about the weight composer -/

/-- C3 counterexample: `_normalize` applied to a score map whose only positive
input is the trader uid's own score returns a map summing to the trader weight
`0.243902` alone, which is not within `1e-6` of `1.0` although a positive
input exists. -/
theorem claim_C3_counterexample :
    (∃ p ∈ c3Scores, 0 < p.2) ∧
      sumWeights (normalize_scores c3Scores (some 99) (243902 / 1000000) none)
        = 243902 / 1000000 ∧
      ¬ |sumWeights (normalize_scores c3Scores (some 99) (243902 / 1000000) none) - 1|
          ≤ 1 / 1000000 := by
  have hval : normalize_scores c3Scores (some 99) (243902 / 1000000) none
      = [(99, 243902 / 1000000)] := by
    norm_num [normalize_scores, validatedTraderWeight, baseWeights, minerTotalOf,
      positiveMinerOf, minerScoresOf, clampedScores, insertOrReplace, c3Scores,
      sumWeights]
  refine ⟨⟨(99, 5), by simp [c3Scores], by norm_num⟩, ?_, ?_⟩
  · rw [hval]; simp [sumWeights]
  · rw [hval]
    simp only [sumWeights, List.map_cons, List.map_nil, List.sum_cons, List.sum_nil,
      add_zero]
    rw [not_le, abs_sub_comm, abs_of_nonneg (by norm_num)]
    norm_num

/-- C3 amended: the composed map sums exactly to
`(1 - trader_weight) + (trader_weight if the trader uid is present with
positive weight else 0)` whenever at least one positive score belongs to a
uid other than the trader and owner uids (so it equals 1 exactly when the
trader uid is present or the trader weight is 0); and it sums to 0 when
there is no positive miner score, no owner channel, and no trader
allocation. -/
theorem claim_C3_amended :
    ∀ (scores : List (Int × ℚ)) (t : Option Int) (w : ℚ) (o : Option Int),
      0 ≤ w → w < 1 →
      ((∃ p ∈ scores, (t ≠ some p.1 ∧ o ≠ some p.1) ∧ 0 < p.2) →
        sumWeights (normalize_scores scores t w o)
          = (1 - w) + (if t.isSome ∧ 0 < w then w else 0)) ∧
      ((∀ p ∈ scores, some p.1 = t ∨ some p.1 = o ∨ p.2 ≤ 0) → o = none →
        (t = none ∨ w = 0) →
        sumWeights (normalize_scores scores t w o) = 0) := by
  intro scores t w o hw0 hw1
  have htw := validatedTraderWeight_eq w hw0 hw1
  constructor
  · rintro ⟨p, hp, ⟨ht, ho⟩, hpos⟩
    have hT := minerTotalOf_pos hp ht ho hpos
    have hbase : baseWeights scores t o (1 - w)
        = (positiveMinerOf scores t o).map
            (fun q => (q.1, q.2 / minerTotalOf scores t o * (1 - w))) := by
      unfold baseWeights
      rw [if_neg (not_le.mpr hT)]
    have hbs : sumWeights (baseWeights scores t o (1 - w)) = 1 - w := by
      rw [hbase]
      exact sumWeights_prorata _ _ _ (ne_of_gt hT) rfl
    unfold normalize_scores
    rw [htw]
    cases t with
    | none => simpa using hbs
    | some tt =>
      by_cases hw : 0 < w
      · simp only [if_pos hw]
        have hfresh : ∀ q ∈ baseWeights scores (some tt) o (1 - w), q.1 ≠ tt := by
          rw [hbase]
          intro q hq
          obtain ⟨r, hr, rfl⟩ := List.mem_map.mp hq
          have := positiveMinerOf_not_trader hr
          simpa [eq_comm] using this
        rw [insertOrReplace_fresh _ _ _ hfresh, sumWeights_append, hbs]
        simp [sumWeights, hw]
      · have hw0' : w = 0 := le_antisymm (not_lt.mp hw) hw0
        simp only [if_neg hw]
        rw [hbs]
        simp [hw]
  · intro hall ho ht0
    have hpm := positiveMinerOf_eq_nil hall
    have hT : minerTotalOf scores t o = 0 := by
      unfold minerTotalOf
      rw [hpm]
      rfl
    have hbase : baseWeights scores t o (1 - w) = [] := by
      unfold baseWeights
      rw [hT, if_pos le_rfl, ho]
    cases t with
    | none =>
      simp only [normalize_scores, htw]
      rw [hbase]
      rfl
    | some tt =>
      rcases ht0 with h | h
      · exact absurd h (by simp)
      · subst h
        simp only [normalize_scores, htw]
        rw [if_neg (lt_irrefl 0), hbase]
        rfl

/-- Witness for the amended C3: part 1 at a two-miner map with a present
trader uid, part 2 at a trader-only map with zero trader weight. -/
theorem claim_C3_amended_witness :
    sumWeights (normalize_scores [((1 : Int), (3 : ℚ)), (2, 0)] (some 9)
        (243902 / 1000000) none)
      = (1 - 243902 / 1000000) + 243902 / 1000000 ∧
      sumWeights (normalize_scores [((7 : Int), (0 : ℚ))] none 0 none) = 0 := by
  constructor
  · have h := (claim_C3_amended [((1 : Int), (3 : ℚ)), (2, 0)] (some 9)
        (243902 / 1000000) none (by norm_num) (by norm_num)).1
      ⟨(1, 3), by simp, ⟨by decide, by decide⟩, by norm_num⟩
    rw [h]
    norm_num
  · exact (claim_C3_amended [((7 : Int), (0 : ℚ))] none 0 none le_rfl (by norm_num)).2
      (by intro p hp; simp at hp; subst hp; exact Or.inr (Or.inr (by norm_num)))
      rfl (Or.inl rfl)

/-- C4: when every miner score clamps to zero and an owner uid is present
(and distinct from the trader uid), `_normalize` assigns the owner uid
exactly `1 - trader_weight` as an emission burn, while a present trader uid
with positive weight still receives exactly `trader_weight`. -/
theorem claim_C4_burn_channel :
    ∀ (scores : List (Int × ℚ)) (t : Option Int) (w : ℚ) (o : Int),
      0 ≤ w → w < 1 →
      (∀ p ∈ scores, some p.1 = t ∨ p.1 = o ∨ p.2 ≤ 0) →
      t ≠ some o →
      List.lookup o (normalize_scores scores t w (some o)) = some (1 - w) ∧
        (∀ tt, t = some tt → 0 < w →
          List.lookup tt (normalize_scores scores t w (some o)) = some w) := by
  intro scores t w o hw0 hw1 hall hto
  have htw := validatedTraderWeight_eq w hw0 hw1
  have hpm : positiveMinerOf scores t (some o) = [] := by
    apply positiveMinerOf_eq_nil
    intro p hp
    rcases hall p hp with h | h | h
    · exact Or.inl h
    · exact Or.inr (Or.inl (by rw [h]))
    · exact Or.inr (Or.inr h)
  have hT : minerTotalOf scores t (some o) = 0 := by
    unfold minerTotalOf
    rw [hpm]
    rfl
  have hbase : baseWeights scores t (some o) (1 - w) = [(o, 1 - w)] := by
    unfold baseWeights
    rw [hT, if_pos le_rfl]
  cases t with
  | none =>
    simp only [normalize_scores, htw]
    rw [hbase]
    refine ⟨by simp [List.lookup], ?_⟩
    intro tt htt
    exact absurd htt (by simp)
  | some tt =>
    have htne : tt ≠ o := fun h => hto (by rw [h])
    simp only [normalize_scores, htw]
    rw [hbase]
    by_cases hw : 0 < w
    · simp only [if_pos hw]
      have hio : insertOrReplace [(o, 1 - w)] tt w = [(o, 1 - w), (tt, w)] := by
        apply insertOrReplace_fresh
        intro p hp
        simp at hp
        subst hp
        exact fun h => htne h.symm
      rw [hio]
      constructor
      · simp [List.lookup]
      · intro tt2 htt2 _
        have h2 : tt2 = tt := by injection htt2.symm
        subst h2
        have hbeq : (tt2 == o) = false := beq_eq_false_iff_ne.mpr htne
        simp [List.lookup, hbeq]
    · simp only [if_neg hw]
      refine ⟨by simp [List.lookup], ?_⟩
      intro tt2 htt2 hwpos
      exact absurd hwpos hw

/-- Witness for C4: trader uid 99 with weight `0.243902`, owner uid 0, one
zero miner and the trader's own positive entry. -/
theorem claim_C4_witness :
    List.lookup (0 : Int) (normalize_scores [((1 : Int), (0 : ℚ)), (99, 7)]
        (some 99) (243902 / 1000000) (some 0))
      = some (1 - 243902 / 1000000) ∧
      List.lookup (99 : Int) (normalize_scores [((1 : Int), (0 : ℚ)), (99, 7)]
          (some 99) (243902 / 1000000) (some 0))
        = some (243902 / 1000000) := by
  have h := claim_C4_burn_channel [((1 : Int), (0 : ℚ)), (99, 7)] (some 99)
    (243902 / 1000000) 0 (by norm_num) (by norm_num)
    (by
      intro p hp
      simp at hp
      rcases hp with h1 | h1
      · subst h1; exact Or.inr (Or.inr (by norm_num))
      · subst h1; exact Or.inl rfl)
    (by decide)
  exact ⟨h.1, h.2 99 rfl (by norm_num)⟩

/-! ## Claim C6: publish cooldown suppression -/

theorem normalize_scores_nil :
    normalize_scores [] none 0 none = [] := by
  norm_num [normalize_scores, validatedTraderWeight, baseWeights, minerTotalOf,
    positiveMinerOf, minerScoresOf, clampedScores]

/-- C6: with `force=False`, a metagraph and validator uid provided, and
`current_block - last_update[validator_uid]` below the effective tempo
(metagraph tempo, or the settings fallback when it is unavailable), `publish`
never reaches the chain `set_weights` call and returns the composed weight
map. -/
theorem claim_C6_cooldown_suppresses_submit :
    ∀ (scores : List (Int × ℚ)) (s : Settings) (traderRes ownerRes : UidRes)
      (m : Metagraph) (v : Nat) (cb : Int) (submit : SubmitOutcome),
      cb - lastUpdateOf m v < effectiveTempo m s →
      (publish_model scores s traderRes (some m) ownerRes (some v) cb false
          submit).submitted = false ∧
        (publish_model scores s traderRes (some m) ownerRes (some v) cb false
            submit).weights
          = normalize_scores scores (resolvedTraderUid s traderRes)
              (if (resolvedTraderUid s traderRes).isSome then
                s.trader_rewards_pool_weight else 0)
              (resolvedOwnerUid (some m) ownerRes) := by
  intro scores s traderRes ownerRes m v cb submit hcool
  simp only [publish_model]
  split
  · rename_i hcase
    obtain ⟨h1, h2, h3⟩ := hcase
    rw [List.isEmpty_iff] at h1
    subst h1
    rw [h2, h3]
    simp [normalize_scores_nil]
  · have hs : decide (cb - lastUpdateOf m v < effectiveTempo m s) = true :=
      decide_eq_true hcool
    simp [hs]

/-- Witness for C6: tempo 360, 100 blocks since the validator's last update,
a successful would-be submit outcome — the publish is still suppressed. -/
theorem claim_C6_witness :
    (200 : Int) - lastUpdateOf c6Metagraph 0 < effectiveTempo c6Metagraph s1Settings ∧
      (publish_model [((1 : Int), (1 : ℚ))] s1Settings (UidRes.resolved none)
          (some c6Metagraph) (UidRes.resolved (some 5)) (some 0) 200 false
          (SubmitOutcome.returned true false)).submitted = false := by
  have h : (200 : Int) - lastUpdateOf c6Metagraph 0
      < effectiveTempo c6Metagraph s1Settings := by decide
  exact ⟨h, (claim_C6_cooldown_suppresses_submit [((1 : Int), (1 : ℚ))] s1Settings
    (UidRes.resolved none) (UidRes.resolved (some 5)) c6Metagraph 0 200
    (SubmitOutcome.returned true false) h).1⟩

/-! ## Claim C7: the daemon's force flag -/

/-- C7 counterexample: both the startup pass and the sub-epoch re-publish of
cached weights are invoked by the daemon loop with `force = false` (the
Python call sites pass no `force` argument), not `force = true` as claimed. -/
theorem claim_C7_counterexample :
    daemonTick c7BootState c7Env
        = DaemonCall.runEpochPass "2024-11-08T00:00:00Z" false ∧
      daemonTick c7MidweekState c7Env
        = DaemonCall.publishCached "2024-11-08T00:00:00Z" false ∧
      ¬ (∀ e f, daemonTick c7MidweekState c7Env = DaemonCall.publishCached e f →
          f = true) := by
  refine ⟨by decide, by decide, fun h => ?_⟩
  exact Bool.false_ne_true (h "2024-11-08T00:00:00Z" false (by decide))

/-- C7 amended: every publish attempt the daemon loop makes — the pass run on
startup or at a weekly boundary, and the scheduled re-publish after the
per-tempo boundary — carries `force = false`, so the publisher's cooldown
check applies to all of them. -/
theorem claim_C7_amended :
    ∀ (st : LoopState) (env : LoopEnv) (e : String) (f : Bool),
      (daemonTick st env = DaemonCall.runEpochPass e f ∨
        daemonTick st env = DaemonCall.publishCached e f) → f = false := by
  intro st env e f h
  unfold daemonTick at h
  rcases h with h | h <;>
    · split at h
      · simp_all
      · split at h
        · split at h <;> simp_all
        · simp_all

/-- Witness for the amended C7, at the concrete mid-week re-publish call. -/
theorem claim_C7_amended_witness :
    daemonTick c7MidweekState c7Env
        = DaemonCall.publishCached "2024-11-08T00:00:00Z" false ∧
      (false : Bool) = false :=
  ⟨by decide, claim_C7_amended c7MidweekState c7Env "2024-11-08T00:00:00Z" false
    (Or.inr (by decide))⟩

/-! ## Claim C8: epoch adoption -/

theorem truthyVersions_const (entries : List Entry) (v : String)
    (hall : ∀ e ∈ entries, e.epochVersion = some v) (hv : v ≠ "") :
    truthyVersions entries = entries.map (fun _ => v) := by
  induction entries with
  | nil => rfl
  | cons e es ih =>
    unfold truthyVersions
    rw [List.filterMap_cons, hall e (by simp)]
    simp only [if_neg hv, List.map_cons]
    have hrest := ih (fun x hx => hall x (by simp [hx]))
    unfold truthyVersions at hrest
    rw [hrest]

theorem firstOccs_const_aux (l : List String) (v : String)
    (hall : ∀ x ∈ l, x = v) :
    l.foldl (fun acc x => if acc.contains x then acc else acc ++ [x]) [v] = [v] := by
  induction l with
  | nil => rfl
  | cons x xs ih =>
    have hx : x = v := hall x (by simp)
    subst hx
    simp only [List.foldl_cons]
    rw [if_pos (by simp)]
    exact ih (fun y hy => hall y (by simp [hy]))

theorem firstOccs_const (l : List String) (v : String) (hne : l ≠ [])
    (hall : ∀ x ∈ l, x = v) : firstOccs l = [v] := by
  cases l with
  | nil => exact absurd rfl hne
  | cons x xs =>
    have hx : x = v := hall x (by simp)
    subst hx
    unfold firstOccs
    simp only [List.foldl_cons]
    rw [if_neg (by simp), List.nil_append]
    exact firstOccs_const_aux xs x (fun y hy => hall y (by simp [hy]))

/-- C8 counterexample: scenario S5 — requesting `2024-11-15` while the
verifier returns entries frozen at `2024-11-08`.  The deregistered-hotkeys
fetch queries the REQUESTED epoch (it runs before the reconciliation), not
the adopted one. -/
theorem claim_C8_counterexample :
    (run_epoch_flow "2024-11-15T00:00:00Z" [c8Entry]).deregQueryEpoch
        = "2024-11-15T00:00:00Z" ∧
      (run_epoch_flow "2024-11-15T00:00:00Z" [c8Entry]).effectiveEpoch
        = "2024-11-08T00:00:00Z" ∧
      (run_epoch_flow "2024-11-15T00:00:00Z" [c8Entry]).deregQueryEpoch
        ≠ (run_epoch_flow "2024-11-15T00:00:00Z" [c8Entry]).effectiveEpoch := by
  refine ⟨rfl, by decide, by decide⟩

/-- C8 amended: when all returned entries share an `epoch_version` different
from the requested one, the runner adopts the returned epoch for the
persisted artifact (and the pass result), but the deregistered-hotkeys fetch
has already queried the REQUESTED epoch, since it happens before the
reconciliation step. -/
theorem claim_C8_amended :
    ∀ (requested : String) (entries : List Entry) (v : String),
      entries ≠ [] → (∀ e ∈ entries, e.epochVersion = some v) → v ≠ "" →
      v ≠ requested →
      (run_epoch_flow requested entries).effectiveEpoch = v ∧
        (run_epoch_flow requested entries).artifactEpoch = v ∧
        (run_epoch_flow requested entries).deregQueryEpoch = requested := by
  intro requested entries v hne hall hv hvr
  have htv : truthyVersions entries = entries.map (fun _ => v) :=
    truthyVersions_const entries v hall hv
  have hfo : firstOccs (truthyVersions entries) = [v] := by
    rw [htv]
    apply firstOccs_const
    · simpa using hne
    · intro x hx
      obtain ⟨e, _, rfl⟩ := List.mem_map.mp hx
      rfl
  have hadopt : adoptEpoch requested entries = v := by
    simp only [adoptEpoch, hfo]
    rw [if_neg (by simpa [List.isEmpty_iff] using hne)]
    simp [hvr]
  exact ⟨hadopt, hadopt, rfl⟩

/-- Witness for the amended C8, at scenario S5. -/
theorem claim_C8_amended_witness :
    (run_epoch_flow "2024-11-15T00:00:00Z" [c8Entry]).effectiveEpoch
        = "2024-11-08T00:00:00Z" ∧
      (run_epoch_flow "2024-11-15T00:00:00Z" [c8Entry]).deregQueryEpoch
        = "2024-11-15T00:00:00Z" := by
  have h := claim_C8_amended "2024-11-15T00:00:00Z" [c8Entry] "2024-11-08T00:00:00Z"
    (by decide) (by decide) (by decide) (by decide)
  exact ⟨h.1, h.2.2⟩

/-! ## Claim C9: cache write atomicity -/

/-- C9 counterexample: `_save_cache` truncates the cache file in place before
writing, so a crash between the truncation and the write leaves an empty
file, which is neither the previous content nor the complete new content —
the write is not atomic. -/
theorem claim_C9_counterexample :
    ([] : List Nat) ∈ crashStates c9OldContent (save_cache_ops c9NewContent) ∧
      ¬ (∀ c ∈ crashStates c9OldContent (save_cache_ops c9NewContent),
          c = c9OldContent ∨ c = runOps c9OldContent (save_cache_ops c9NewContent)) :=
  ⟨by decide, by decide⟩

/-- C9 amended: `_save_cache` writes the cache file in place — truncate, then
one streamed write.  A completed save leaves exactly the new content, but a
crash can leave the empty file or any prefix of the new content, so a
half-written cache file is possible; the previous content survives only if
the crash happens before the truncation. -/
theorem claim_C9_amended :
    ∀ (old new c : List Nat),
      runOps old (save_cache_ops new) = new ∧
        (c ∈ crashStates old (save_cache_ops new) ↔
          c = old ∨ ∃ k, k ≤ new.length ∧ c = new.take k) := by
  intro old new c
  constructor
  · simp [runOps, save_cache_ops, applyOp]
  · simp only [save_cache_ops, crashStates, midStates, applyOp, List.nil_append,
      List.mem_cons, List.mem_append, List.mem_map, List.mem_range,
      List.mem_singleton, List.not_mem_nil, or_false, false_or]
    constructor
    · rintro (h | h | ⟨k, hk, hceq⟩ | h)
      · exact Or.inl h
      · exact Or.inr ⟨0, Nat.zero_le _, by simp [h]⟩
      · exact Or.inr ⟨k, Nat.lt_succ_iff.mp hk, hceq.symm⟩
      · exact Or.inr ⟨new.length, le_rfl, by simp [h]⟩
    · rintro (h | ⟨k, hk, rfl⟩)
      · exact Or.inl h
      · exact Or.inr (Or.inr (Or.inl ⟨k, Nat.lt_succ_of_le hk, rfl⟩))

/-! ## Claim C5: deregistered hotkeys -/

theorem addToGroups_keys (l : List (Int × MinerGroup)) (u : Int) (h : String)
    (slot : Option String) (e : Entry) :
    (addToGroups l u h slot e).map Prod.fst =
      if u ∈ l.map Prod.fst then l.map Prod.fst else l.map Prod.fst ++ [u] := by
  induction l with
  | nil => simp [addToGroups]
  | cons p rest ih =>
    obtain ⟨v, g⟩ := p
    by_cases hv : v = u
    · subst hv
      simp [addToGroups]
    · simp only [addToGroups, if_neg hv, List.map_cons, List.mem_cons]
      rw [ih]
      by_cases hm : u ∈ rest.map Prod.fst
      · rw [if_pos hm, if_pos (Or.inr hm)]
      · rw [if_neg hm, if_neg (by rintro (h1 | h1); exact hv h1.symm; exact hm h1)]
        simp

theorem addToGroups_nodup (l : List (Int × MinerGroup)) (u : Int) (h : String)
    (slot : Option String) (e : Entry) (hnd : (l.map Prod.fst).Nodup) :
    ((addToGroups l u h slot e).map Prod.fst).Nodup := by
  rw [addToGroups_keys]
  split
  · exact hnd
  · rename_i hmem
    simp only [List.nodup_append, List.nodup_cons, List.nodup_nil]
    exact ⟨hnd, by simp, by simpa [List.disjoint_singleton] using hmem⟩

theorem groupStep_groups (uidFor : String → UidRes) (acc : Pass1) (e : Entry) :
    (groupStep uidFor acc e).groups = acc.groups ∨
      ∃ u h, (groupStep uidFor acc e).groups = addToGroups acc.groups u h e.slotUid e := by
  unfold groupStep
  cases hht : hotkeyTruthy e with
  | none => left; simp
  | some h =>
    cases hu : uidFor h with
    | failed => left; simp [hu]
    | resolved o =>
      cases o with
      | none => left; simp [hu]
      | some u =>
        by_cases hneg : u < 0
        · left; simp [hu, hneg]
        · right; exact ⟨u, h, by simp [hu, hneg]⟩

theorem groupEntries_nodup_aux (uidFor : String → UidRes) (entries : List Entry) :
    ∀ acc : Pass1, (acc.groups.map Prod.fst).Nodup →
      (((entries.foldl (groupStep uidFor) acc)).groups.map Prod.fst).Nodup := by
  induction entries with
  | nil => intro acc h; exact h
  | cons e es ih =>
    intro acc h
    rw [List.foldl_cons]
    apply ih
    rcases groupStep_groups uidFor acc e with heq | ⟨u, h2, heq⟩
    · rw [heq]; exact h
    · rw [heq]; exact addToGroups_nodup _ _ _ _ _ h

theorem groupEntries_nodup (entries : List Entry) (uidFor : String → UidRes) :
    (((groupEntries entries uidFor).groups).map Prod.fst).Nodup :=
  groupEntries_nodup_aux uidFor entries ⟨[], 0, 0, 0, 0⟩ (by simp)

theorem scores_lookup (groups : List (Int × MinerGroup)) (F : MinerGroup → Option ℝ)
    (u : Int) (g : MinerGroup) (hnd : (groups.map Prod.fst).Nodup)
    (hmem : (u, g) ∈ groups) (sc : ℝ) (hf : F g = some sc) :
    (groups.filterMap (fun p => (F p.2).map (fun x => (p.1, x)))).lookup u = some sc := by
  induction groups with
  | nil => cases hmem
  | cons p rest ih =>
    obtain ⟨v, g2⟩ := p
    simp only [List.map_cons, List.nodup_cons] at hnd
    rcases List.mem_cons.mp hmem with heq | hmem2
    · injection heq with h1 h2
      subst h1
      subst h2
      rw [List.filterMap_cons, hf]
      simp [List.lookup]
    · have hv : (u == v) = false := by
        apply beq_eq_false_iff_ne.mpr
        intro hvu
        subst hvu
        exact hnd.1 (List.mem_map.mpr ⟨(u, g), hmem2, rfl⟩)
      rw [List.filterMap_cons]
      cases hF2 : F g2 with
      | none => simpa using ih hnd.2 hmem2
      | some x => simpa [List.lookup, hv] using ih hnd.2 hmem2

/-- C5: a grouped miner whose hotkey is in the deregistered set scores no
position (its position list is empty), adds all of its entries to both the
`skipped` and `expired_pools` counters, contributes nothing to `scored`, and
its uid's final score is exactly 0 in the scores map. -/
theorem claim_C5_deregistered :
    ∀ (entries : List Entry) (uidFor : String → UidRes) (s : Settings)
      (dereg : List String) (now : Int) (u : Int) (g : MinerGroup),
      (u, g) ∈ (groupEntries entries uidFor).groups →
      g.hotkey ∈ dereg →
      processMiner g s dereg now
          = ⟨some 0, g.entries.length, g.entries.length, 0, []⟩ ∧
        (processEntriesScores entries uidFor s dereg now).lookup u = some 0 := by
  intro entries uidFor s dereg now u g hmem hd
  have hpm : processMiner g s dereg now
      = ⟨some 0, g.entries.length, g.entries.length, 0, []⟩ := by
    unfold processMiner
    rw [if_pos hd]
  refine ⟨hpm, ?_⟩
  unfold processEntriesScores
  exact scores_lookup _ (fun g2 => (processMiner g2 s dereg now).score) u g
    (groupEntries_nodup entries uidFor) hmem 0
    (by show (processMiner g s dereg now).score = some 0; rw [hpm])

/-- Witness for C5: one entry for deregistered hotkey HK1 (uid 3). -/
theorem claim_C5_witness :
    (3, c5Group) ∈ (groupEntries [c5Entry] c5UidFor).groups ∧
      processMiner c5Group s1Settings ["HK1"] 0 = ⟨some 0, 1, 1, 0, []⟩ ∧
      (processEntriesScores [c5Entry] c5UidFor s1Settings ["HK1"] 0).lookup 3
        = some 0 := by
  have hmem : (3, c5Group) ∈ (groupEntries [c5Entry] c5UidFor).groups := by decide
  have h := claim_C5_deregistered [c5Entry] c5UidFor s1Settings ["HK1"] 0 3 c5Group
    hmem (by decide)
  exact ⟨hmem, h.1, h.2⟩

end CarthaValidator
